import Mathlib

/-!
Verification of the study-planner engine (mock localStorage API service and
progress agent). Calendar dates are embedded as integer day numbers (the
source stores date-only ISO strings and compares them after parsing to UTC
midnight, so day granularity is exact). Fractional hours are embedded as
rationals. Timestamps are integers. The source's `topic` / `description`
strings are abstracted to the boolean `examPrep` that selects between the
two label templates; creation timestamps and subject join-objects on the
returned records are not modelled (no claim depends on them).
-/

deriving instance DecidableEq for Except

namespace StudyPlanner

/-- A subject record (owner id and entity id; the name and description play
no role in the scheduling logic). -/
structure Subject where
  id : Nat
  user_id : Nat
deriving Repr, DecidableEq

/-- An exam record: owner, subject reference and calendar date (day number). -/
structure Exam where
  id : Nat
  user_id : Nat
  subject_id : Nat
  exam_date : Int
deriving Repr, DecidableEq

/-- A study-plan session: one planned block for one subject on one date. -/
structure Session where
  id : Nat
  user_id : Nat
  subject_id : Nat
  study_date : Int
  planned_hours : ℚ
  examPrep : Bool
  is_completed : Bool
  completed_at : Option Int
deriving Repr, DecidableEq

/-- A progress record, auto-created when a session is marked completed. -/
structure Progress where
  id : Nat
  user_id : Nat
  study_plan_id : Nat
  actual_hours : ℚ
  notes : String
  completed_at : Int
deriving Repr, DecidableEq

/-- The 30-minute minimum session length (`minHoursPerSubject` / `minHours`
in the source). -/
def minHours : ℚ := 1 / 2

/-- JavaScript `Math.round(x * 4) / 4`: quantization to the nearest quarter
hour. Lean's `round` on ℚ is `⌊x + 1/2⌋`, which agrees with JavaScript's
`Math.round` (half-up) at every rational, negatives included. -/
def roundQuarter (x : ℚ) : ℚ := (round (4 * x) : ℤ) / 4

/-- `generateId(collection)`: one more than the largest existing id, or 1 for
an empty collection. -/
def generateIdOf (ids : List Nat) : Nat :=
  match ids with
  | [] => 1
  | _ => ids.foldl max 0 + 1

/-- Classification result for one subject (`subjectPriorities` entries). -/
structure SubjectPriority where
  subject : Subject
  priority : Nat
  daysUntilExam : Int
deriving Repr, DecidableEq

/-- Day count from the reference date to an exam. Both dates are UTC
midnights in the source, so `Math.ceil((examDate - currentDate) / 86400000)`
is the exact integer difference. -/
def daysDiff (refDate : Int) (e : Exam) : Int := e.exam_date - refDate

/-- The `reduce` that scans a subject's exams keeping the smallest day count,
seeded with the 999 sentinel; ties keep the earlier list entry (strict `<`). -/
def closestDays (refDate : Int) (es : List Exam) : Int :=
  es.foldl (fun closest e => if daysDiff refDate e < closest then daysDiff refDate e else closest) 999

/-- The weight map applied to the day count: `≤ 7 → 3`, `≤ 14 → 2`, else 1. -/
def weightOf (d : Int) : Nat := if d ≤ 7 then 3 else if d ≤ 14 then 2 else 1

/-- One subject's entry of `subjectPriorities` inside `allocateStudyTime`:
filter the exams belonging to the subject; with none, weight 1 and the 999
sentinel; otherwise weight the smallest day count (as the source computes it). -/
def classifySubject (exams : List Exam) (refDate : Int) (s : Subject) : SubjectPriority :=
  let subjectExams := exams.filter (fun e => e.subject_id == s.id)
  if subjectExams.isEmpty then ⟨s, 1, 999⟩
  else ⟨s, weightOf (closestDays refDate subjectExams), closestDays refDate subjectExams⟩

/-- An allocator working entry (subject priority plus running hours). -/
structure RawAlloc where
  subject : Subject
  priority : Nat
  daysUntilExam : Int
  hours : ℚ
deriving Repr, DecidableEq

/-- A final allocation entry; `examPrep` records whether the topic is the
"Exam Prep" label (day count at most 7) or the generic study-session label. -/
structure Allocation where
  subject : Subject
  hours : ℚ
  examPrep : Bool
deriving Repr, DecidableEq

/-- The second-pass rescale loop of `allocateStudyTime`: every entry except
the last is scaled, floored at `minHours` and requantized, while the running
sum accumulates; the last entry absorbs `totalHours` minus that sum, floored
at `minHours` (and not requantized). -/
def rescaleGo (totalHours scale : ℚ) : List RawAlloc → ℚ → List RawAlloc
  | [], _ => []
  | [a], acc => [{ a with hours := max minHours (totalHours - acc) }]
  | a :: b :: rest, acc =>
      { a with hours := roundQuarter (max minHours (a.hours * scale)) } ::
        rescaleGo totalHours scale (b :: rest) (acc + roundQuarter (max minHours (a.hours * scale)))

/-- `allocateStudyTime(subjects, exams, totalHours, currentDate)`: a single
subject receives the whole budget unquantized; otherwise priority-weighted
ideal shares are floored and quantized, and when they oversubscribe the
budget the rescale pass runs. -/
def allocateStudyTime (subjects : List Subject) (exams : List Exam)
    (totalHours : ℚ) (currentDate : Int) : List Allocation :=
  match subjects with
  | [s] => [{ subject := s, hours := totalHours, examPrep := false }]
  | subs =>
    let sps := subs.map (classifySubject exams currentDate)
    let totalPriority : ℚ := (sps.foldl (fun acc sp => acc + sp.priority) 0 : ℕ)
    let ideal : List RawAlloc := sps.map (fun sp =>
      { subject := sp.subject, priority := sp.priority, daysUntilExam := sp.daysUntilExam,
        hours := roundQuarter (max minHours (totalHours * sp.priority / totalPriority)) })
    let allocated := ideal.foldl (fun acc a => acc + a.hours) 0
    let final := if totalHours < allocated then rescaleGo totalHours (totalHours / allocated) ideal 0 else ideal
    final.map (fun a => { subject := a.subject, hours := a.hours, examPrep := decide (a.daysUntilExam ≤ (7 : Int)) })

/-- A generated session before ids and owner metadata are attached. -/
structure Proto where
  subject_id : Nat
  study_date : Int
  planned_hours : ℚ
  examPrep : Bool
deriving Repr, DecidableEq

/-- `subjectsPerDay = Math.min(subjects.length, Math.floor(dailyHours / minHours))`,
as the (non-negative) number of loop iterations per day. -/
def subjectsPerDayOf (subjects : List Subject) (dailyHours : ℚ) : Nat :=
  (min (subjects.length : Int) ⌊dailyHours / minHours⌋).toNat

/-- One day of the generation loop: pick `spd` subjects round-robin starting
at the running index, allocate the daily budget among them, and emit one
proto-session per allocation dated that day. -/
def dayProtos (subjects : List Subject) (exams : List Exam) (dailyHours : ℚ)
    (spd : Nat) (idx : Nat) (d : Int) : List Proto :=
  let todaySubjects := (List.range spd).map (fun i => subjects.getD ((idx + i) % subjects.length) ⟨0, 0⟩)
  (allocateStudyTime todaySubjects exams dailyHours d).map (fun a =>
    { subject_id := a.subject.id, study_date := d, planned_hours := a.hours, examPrep := a.examPrep })

/-- The `while (currentDate <= endDate)` walk, expressed by the number of
remaining days; the subject index advances by `spd` per day. -/
def genProtos (subjects : List Subject) (exams : List Exam) (dailyHours : ℚ)
    (spd : Nat) : Nat → Int → Nat → List Proto
  | 0, _, _ => []
  | n + 1, d, idx => dayProtos subjects exams dailyHours spd idx d ++
      genProtos subjects exams dailyHours spd n (d + 1) (idx + spd)

/-- The keep-filter of `generateStudyPlan`: other owners' sessions are kept,
and the owner's sessions are kept exactly when dated outside `[a, b]`. -/
def keepPlan (u : Nat) (a b : Int) (p : Session) : Bool :=
  !(p.user_id == u) || decide (p.study_date < a) || decide (b < p.study_date)

/-- Build one stored session from an enumerated proto-session (`planId++`). -/
def mkSession (planId0 u : Nat) (pr : Nat × Proto) : Session :=
  { id := planId0 + pr.1, user_id := u, subject_id := pr.2.subject_id,
    study_date := pr.2.study_date, planned_hours := pr.2.planned_hours,
    examPrep := pr.2.examPrep, is_completed := false, completed_at := none }

/-- Attach ids (consecutive from `planId0`) and owner metadata to the
generated proto-sessions, in emission order. -/
def assignIds (planId0 u : Nat) (protos : List Proto) : List Session :=
  protos.enum.map (mkSession planId0 u)

/-- The result of `getSubjects()`: the subjects owned by the current user. -/
def userSubjects (allSubjects : List Subject) (u : Nat) : List Subject :=
  allSubjects.filter (fun s => s.user_id == u)

/-- The result of `getExams()`: the exams owned by the current user. -/
def userExams (allExams : List Exam) (u : Nat) : List Exam :=
  allExams.filter (fun e => e.user_id == u)

/-- The batch of sessions a generation run creates: the full day walk with
ids assigned from `generateId('study_plans')` (computed over the store as it
stands before the replacement is written back). -/
def newSessionsFor (allPlans : List Session) (subjects : List Subject)
    (exams : List Exam) (u : Nat) (a b : Int) (hrs : ℚ) : List Session :=
  assignIds (generateIdOf (allPlans.map (fun p => p.id))) u
    (genProtos subjects exams hrs (subjectsPerDayOf subjects hrs) ((b - a + 1).toNat) a 0)

/-- `generateStudyPlan(planData)` over the stored session list: fails when the
owner has no subjects; otherwise drops the owner's sessions dated inside
`[startDate, endDate]`, walks every day of the range emitting allocations, and
stores the kept sessions followed by the new ones, returning the new ones. -/
def generateStudyPlan (allPlans : List Session) (allSubjects : List Subject)
    (allExams : List Exam) (userId : Nat) (startDate endDate : Int)
    (dailyHours : ℚ) : Except String (List Session × List Session) :=
  if (userSubjects allSubjects userId).isEmpty then .error "Please add subjects first"
  else
    .ok (allPlans.filter (keepPlan userId startDate endDate) ++
           newSessionsFor allPlans (userSubjects allSubjects userId)
             (userExams allExams userId) userId startDate endDate dailyHours,
         newSessionsFor allPlans (userSubjects allSubjects userId)
           (userExams allExams userId) userId startDate endDate dailyHours)

/-- The errors `markStudyPlanCompleted` can throw. -/
inductive CompleteError
  | notFound
  | notYetAvailable (eligibleDate : Int)
deriving Repr, DecidableEq

/-- The slice of stored state read and written by `markStudyPlanCompleted`. -/
structure CompleteState where
  study_plans : List Session
  progress : List Progress
deriving Repr, DecidableEq

/-- `markStudyPlanCompleted(studyPlanId)`: locate the owner's session, reject
a date still in the future (`new Date(plan.study_date) > new Date()`, which at
day granularity is `today < study_date`), otherwise set the completion flag
and timestamp and append one automatic progress record carrying the session's
planned hours. Both throws happen before any write, so an error leaves the
state untouched. -/
def markStudyPlanCompleted (st : CompleteState) (userId planId : Nat)
    (today now : Int) : Except CompleteError (CompleteState × Session) :=
  match st.study_plans.findIdx? (fun p => p.id == planId && p.user_id == userId) with
  | none => .error .notFound
  | some i =>
    match st.study_plans[i]? with
    | none => .error .notFound
    | some plan =>
      if today < plan.study_date then .error (.notYetAvailable plan.study_date)
      else
        let done := { plan with is_completed := true, completed_at := some now }
        let newProg : Progress :=
          { id := generateIdOf (st.progress.map (fun pr => pr.id)), user_id := userId,
            study_plan_id := planId, actual_hours := plan.planned_hours,
            notes := "Task completed - hours calculated automatically", completed_at := now }
        .ok ({ study_plans := st.study_plans.set i done, progress := st.progress ++ [newProg] }, done)

/-- Does some session of the list sit on day `d` with its completion flag set
(the `some` test inside the streak loop of `analyzeProgress`)? -/
def hasCompletedOn (plans : List Session) (d : Int) : Bool :=
  plans.any (fun p => p.study_date == d && p.is_completed)

/-- The streak loop of `analyzeProgress`, the remaining iteration count made
explicit: at offset `i` from today, a completed day increments the streak and
a gap stops the walk unless it is today itself (`else if (i > 0) break`). -/
def streakAux (plans : List Session) (today : Int) : Nat → Nat → Nat → Nat
  | 0, _, streak => streak
  | r + 1, i, streak =>
    if hasCompletedOn plans (today - i) then streakAux plans today r (i + 1) (streak + 1)
    else if 0 < i then streak
    else streakAux plans today r (i + 1) streak

/-- `currentStreak` as computed by `analyzeProgress` over the owner's plans:
the loop runs over offsets 0 to 29. -/
def currentStreak (plans : List Session) (today : Int) : Nat :=
  streakAux plans today 30 0 0

/-- The owner filter applied by `analyzeProgress` before any statistics. -/
def userPlansOf (plans : List Session) (u : Nat) : List Session :=
  plans.filter (fun p => p.user_id == u)

/-- The streak reported by `analyzeProgress(userId)` over the full store. -/
def analyzeStreak (plans : List Session) (u : Nat) (today : Int) : Nat :=
  currentStreak (userPlansOf plans u) today

/-- The owner-and-range test: does session `p` belong to owner `u` with a
date inside `[a, b]`? These are the sessions `generateStudyPlan` supersedes. -/
def inRangeOwned (u : Nat) (a b : Int) (p : Session) : Bool :=
  p.user_id == u && decide (a ≤ p.study_date) && decide (p.study_date ≤ b)

/-- The subject/date/hours tuple of a session: its identity modulo the
freshly assigned id and metadata. -/
def sessionKey (p : Session) : Nat × Int × ℚ := (p.subject_id, p.study_date, p.planned_hours)

/-- The subject/date/hours tuple of a proto-session. -/
def protoKey (pr : Proto) : Nat × Int × ℚ := (pr.subject_id, pr.study_date, pr.planned_hours)

/-- An exact integer multiple of a quarter hour. -/
def IsQuarter (x : ℚ) : Prop := ∃ k : ℤ, x = (k : ℚ) / 4

/-- Modelled from the spec: the spec's words for the urgency classifier say
to select the exam with the smallest NON-NEGATIVE day count (the code has no
such filter). Written for comparison with `classifySubject`. -/
def classifySubjectSpec (exams : List Exam) (refDate : Int) (s : Subject) : SubjectPriority :=
  let nonneg := ((exams.filter (fun e => e.subject_id == s.id)).map (daysDiff refDate)).filter
    (fun d => decide (0 ≤ d))
  match nonneg with
  | [] => ⟨s, 1, 999⟩
  | d :: ds =>
    let m := (d :: ds).foldl min d
    ⟨s, weightOf m, m⟩

/-- The straight backward walk: starting at day `d`, count consecutive days
having a completed session, stopping at the first gap (fuel-bounded). -/
def runLength (plans : List Session) : Int → Nat → Nat
  | _, 0 => 0
  | d, f + 1 => if hasCompletedOn plans d then runLength plans (d - 1) f + 1 else 0

/-- Modelled from the spec: the spec's words for the streak say to walk
backward from today while each day has a completed session, stopping at the
first gap — with no special case for today itself (bounded by the code's
30-day window). Written for comparison with `currentStreak`. -/
def streakByFirstGap (plans : List Session) (today : Int) : Nat :=
  runLength plans today 30

/-- Claim C2: the completion operation has no guard on `is_completed`; on a
session already marked completed (date not in the future), a second
invocation succeeds again and appends a second automatic Progress record for
the same session, so the progress store ends up with two auto-records for one
completion event. -/
theorem double_completion_duplicates_progress :
    markStudyPlanCompleted ⟨[⟨1, 1, 1, 5, 2, false, false, none⟩], []⟩ 1 1 10 100 =
      .ok (⟨[⟨1, 1, 1, 5, 2, false, true, some 100⟩],
        [⟨1, 1, 1, 2, "Task completed - hours calculated automatically", 100⟩]⟩,
        ⟨1, 1, 1, 5, 2, false, true, some 100⟩) ∧
    markStudyPlanCompleted ⟨[⟨1, 1, 1, 5, 2, false, true, some 100⟩],
        [⟨1, 1, 1, 2, "Task completed - hours calculated automatically", 100⟩]⟩ 1 1 10 101 =
      .ok (⟨[⟨1, 1, 1, 5, 2, false, true, some 101⟩],
        [⟨1, 1, 1, 2, "Task completed - hours calculated automatically", 100⟩,
         ⟨2, 1, 1, 2, "Task completed - hours calculated automatically", 101⟩]⟩,
        ⟨1, 1, 1, 5, 2, false, true, some 101⟩) ∧
    ((⟨[⟨1, 1, 1, 5, 2, false, true, some 101⟩],
        [⟨1, 1, 1, 2, "Task completed - hours calculated automatically", 100⟩,
         ⟨2, 1, 1, 2, "Task completed - hours calculated automatically", 101⟩]⟩ :
      CompleteState).progress.filter (fun pr => pr.study_plan_id == 1)).length = 2 := by
  refine ⟨?_, ?_, ?_⟩ <;> decide

/-- Claim C3: completing an owned session whose date is strictly after today
fails with the not-yet-available error (carrying the eligible date) and, the
operation being read-only until then, leaves the stores untouched; completing
a session dated today or earlier succeeds, setting the completion flag,
stamping the completion time, and appending exactly one automatic Progress
record whose actual hours equal the session's planned hours. -/
theorem complete_gating (st : CompleteState) (u pid : Nat) (today now : Int)
    (i : Nat) (plan : Session)
    (hfind : st.study_plans.findIdx? (fun p => p.id == pid && p.user_id == u) = some i)
    (hget : st.study_plans[i]? = some plan) :
    (today < plan.study_date →
      markStudyPlanCompleted st u pid today now = .error (.notYetAvailable plan.study_date)) ∧
    (plan.study_date ≤ today →
      markStudyPlanCompleted st u pid today now = .ok
        (⟨st.study_plans.set i { plan with is_completed := true, completed_at := some now },
          st.progress ++ [⟨generateIdOf (st.progress.map (fun pr => pr.id)), u, pid,
            plan.planned_hours, "Task completed - hours calculated automatically", now⟩]⟩,
         { plan with is_completed := true, completed_at := some now })) := by
  constructor
  · intro hlt
    unfold markStudyPlanCompleted
    simp only [hfind, hget]
    rw [if_pos hlt]
  · intro hle
    unfold markStudyPlanCompleted
    simp only [hfind, hget]
    rw [if_neg (by omega)]

theorem complete_gating_witness :
    markStudyPlanCompleted ⟨[⟨1, 1, 1, 5, 2, false, false, none⟩], []⟩ 1 1 3 100 =
      .error (.notYetAvailable 5) :=
  (complete_gating ⟨[⟨1, 1, 1, 5, 2, false, false, none⟩], []⟩ 1 1 3 100 0
    ⟨1, 1, 1, 5, 2, false, false, none⟩ (by decide) (by decide)).1 (by decide)

/-- Claim C8 counterexample: with a valid owner, an inverted date range
(`endDate < startDate`) does not raise an error: the call succeeds, returns
zero sessions, and writes the store back unchanged. -/
theorem generate_empty_range_not_error :
    generateStudyPlan [⟨7, 1, 1, 0, 1, false, false, none⟩] [⟨1, 1⟩] [] 1 5 3 2 =
      .ok ([⟨7, 1, 1, 0, 1, false, false, none⟩], []) := by decide

/-- Claim C8 (amended): a generation request with `endDate < startDate` and a
non-empty subject list is a silent no-op, not an explicit error: the day loop
runs zero iterations, no sessions are created or deleted, the stored list is
unchanged, and the call returns an empty session list. -/
theorem generate_empty_range_silent
    (store : List Session) (subjects : List Subject) (exams : List Exam)
    (u : Nat) (a b : Int) (hrs : ℚ)
    (hs : userSubjects subjects u ≠ [])
    (hba : b < a) :
    generateStudyPlan store subjects exams u a b hrs = .ok (store, []) := by
  have hnew : newSessionsFor store (userSubjects subjects u) (userExams exams u) u a b hrs = [] := by
    unfold newSessionsFor
    rw [show (b - a + 1).toNat = 0 from by omega]
    rfl
  have hkeep : store.filter (keepPlan u a b) = store := by
    refine List.filter_eq_self.mpr (fun p _ => ?_)
    simp only [keepPlan, Bool.or_eq_true, Bool.not_eq_true', beq_eq_false_iff_ne, ne_eq,
      decide_eq_true_eq]
    omega
  unfold generateStudyPlan
  rw [if_neg (by simpa using hs), hnew, List.append_nil, hkeep]

theorem generate_empty_range_silent_witness :
    generateStudyPlan [] [⟨1, 1⟩] [] 1 5 3 2 = .ok ([], []) :=
  generate_empty_range_silent [] [⟨1, 1⟩] [] 1 5 3 2 (by decide) (by decide)

/-! Quantization and allocator lemmas -/

theorem minHours_le_roundQuarter {x : ℚ} (hx : minHours ≤ x) : minHours ≤ roundQuarter x := by
  unfold roundQuarter minHours at *
  have h4 : (2 : ℤ) ≤ round (4 * x) := by
    rw [round_eq]
    refine Int.le_floor.mpr ?_
    push_cast
    linarith
  have h5 : (2 : ℚ) ≤ (round (4 * x) : ℚ) := by exact_mod_cast h4
  linarith

theorem rescaleGo_hours_ge (t sc : ℚ) :
    ∀ (l : List RawAlloc) (acc : ℚ), ∀ a ∈ rescaleGo t sc l acc, minHours ≤ a.hours := by
  intro l
  induction l with
  | nil => intro acc a ha; simp [rescaleGo] at ha
  | cons x tl ih =>
    intro acc a ha
    cases tl with
    | nil =>
      simp only [rescaleGo, List.mem_singleton] at ha
      subst ha
      exact le_max_left _ _
    | cons y rest =>
      simp only [rescaleGo] at ha
      rcases List.mem_cons.mp ha with rfl | h
      · exact minHours_le_roundQuarter (le_max_left _ _)
      · exact ih _ a h

/-- Claim C5: in every multi-subject allocation (the claim's hypotheses on the
subject count and total budget included), every returned entry receives at
least the half-hour minimum, whether or not the rescale pass ran. -/
theorem allocator_respects_minimum (subjects : List Subject) (exams : List Exam)
    (totalHours : ℚ) (d : Int)
    (hn : 2 ≤ subjects.length) (ht : (subjects.length : ℚ) * minHours ≤ totalHours) :
    ∀ a ∈ allocateStudyTime subjects exams totalHours d, minHours ≤ a.hours := by
  rcases subjects with _ | ⟨s, _ | ⟨y, rest⟩⟩
  · simp at hn
  · simp at hn
  · intro a ha
    simp only [allocateStudyTime] at ha
    rcases List.mem_map.mp ha with ⟨r, hr, rfl⟩
    split at hr
    · exact rescaleGo_hours_ge _ _ _ _ r hr
    · rcases List.mem_map.mp hr with ⟨sp, _, rfl⟩
      exact minHours_le_roundQuarter (le_max_left _ _)

theorem allocate_two_equal_split :
    allocateStudyTime [⟨1, 1⟩, ⟨2, 1⟩] [] 1 0 =
      [{ subject := ⟨1, 1⟩, hours := 1 / 2, examPrep := false },
       { subject := ⟨2, 1⟩, hours := 1 / 2, examPrep := false }] := by
  have hc : ∀ s : Subject, classifySubject [] 0 s = ⟨s, 1, 999⟩ := fun s => rfl
  simp only [allocateStudyTime, List.map_cons, List.map_nil, hc, List.foldl_cons, List.foldl_nil]
  norm_num [minHours, roundQuarter, round_ofNat, max_self]

theorem allocator_respects_minimum_witness :
    minHours ≤ ({ subject := ⟨1, 1⟩, hours := 1 / 2, examPrep := false } : Allocation).hours :=
  allocator_respects_minimum [⟨1, 1⟩, ⟨2, 1⟩] [] 1 0 (by decide) (by norm_num [minHours])
    { subject := ⟨1, 1⟩, hours := 1 / 2, examPrep := false }
    (by rw [allocate_two_equal_split]; exact List.mem_cons_self _ _)

theorem isQuarter_roundQuarter (x : ℚ) : IsQuarter (roundQuarter x) := ⟨round (4 * x), rfl⟩

theorem isQuarter_minHours : IsQuarter minHours := ⟨2, by norm_num [minHours]⟩

theorem IsQuarter.max_q {x y : ℚ} (hx : IsQuarter x) (hy : IsQuarter y) :
    IsQuarter (max x y) := by
  rcases max_choice x y with h | h <;> rw [h] <;> assumption

theorem IsQuarter.sub_q {x y : ℚ} (hx : IsQuarter x) (hy : IsQuarter y) :
    IsQuarter (x - y) := by
  obtain ⟨k, rfl⟩ := hx
  obtain ⟨l, rfl⟩ := hy
  exact ⟨k - l, by push_cast; ring⟩

theorem IsQuarter.add_q {x y : ℚ} (hx : IsQuarter x) (hy : IsQuarter y) :
    IsQuarter (x + y) := by
  obtain ⟨k, rfl⟩ := hx
  obtain ⟨l, rfl⟩ := hy
  exact ⟨k + l, by push_cast; ring⟩

theorem isQuarter_zero : IsQuarter 0 := ⟨0, by norm_num⟩

theorem rescaleGo_hours_quarter (t sc : ℚ) (hT : IsQuarter t) :
    ∀ (l : List RawAlloc) (acc : ℚ), IsQuarter acc →
      ∀ a ∈ rescaleGo t sc l acc, IsQuarter a.hours := by
  intro l
  induction l with
  | nil => intro acc _ a ha; simp [rescaleGo] at ha
  | cons x tl ih =>
    intro acc hacc a ha
    cases tl with
    | nil =>
      simp only [rescaleGo, List.mem_singleton] at ha
      subst ha
      exact IsQuarter.max_q isQuarter_minHours (IsQuarter.sub_q hT hacc)
    | cons y rest =>
      simp only [rescaleGo] at ha
      rcases List.mem_cons.mp ha with rfl | h
      · exact isQuarter_roundQuarter _
      · exact ih _ (IsQuarter.add_q hacc (isQuarter_roundQuarter _)) a h

/-- Claim C7 counterexample: a single-subject allocation hands the subject
the raw total budget; with a budget of 1.3 hours the returned entry is 1.3
hours, which is not an integer multiple of a quarter hour. -/
theorem allocator_unquantized_single_subject :
    allocateStudyTime [⟨1, 1⟩] [] (13 / 10) 0 =
      [{ subject := ⟨1, 1⟩, hours := 13 / 10, examPrep := false }] ∧
    ¬ IsQuarter ((13 : ℚ) / 10) := by
  refine ⟨rfl, ?_⟩
  rintro ⟨k, hk⟩
  have h52 : (52 : ℚ) = 10 * (k : ℚ) := by
    field_simp at hk
    linarith
  have h52z : (52 : ℤ) = 10 * k := by exact_mod_cast h52
  omega

/-- Claim C7 (amended): whenever the requested total is itself an integer
multiple of a quarter hour, every allocator entry is one too (the quantized
shares, the rescaled shares, and the last-subject remainder alike); the
single-subject passthrough and the rescaled remainder inherit any
non-quarter total, as the counterexample shows. -/
theorem allocator_quarter_hours (subjects : List Subject) (exams : List Exam)
    (totalHours : ℚ) (d : Int) (hq : IsQuarter totalHours) :
    ∀ a ∈ allocateStudyTime subjects exams totalHours d, IsQuarter a.hours := by
  rcases subjects with _ | ⟨s, _ | ⟨y, rest⟩⟩
  · intro a ha
    simp [allocateStudyTime, rescaleGo] at ha
  · intro a ha
    simp only [allocateStudyTime, List.mem_singleton] at ha
    subst ha
    exact hq
  · intro a ha
    simp only [allocateStudyTime] at ha
    rcases List.mem_map.mp ha with ⟨r, hr, rfl⟩
    split at hr
    · exact rescaleGo_hours_quarter _ _ hq _ _ isQuarter_zero r hr
    · rcases List.mem_map.mp hr with ⟨sp, _, rfl⟩
      exact isQuarter_roundQuarter _

theorem allocator_quarter_hours_witness :
    IsQuarter ({ subject := ⟨1, 1⟩, hours := 1 / 2, examPrep := false } : Allocation).hours :=
  allocator_quarter_hours [⟨1, 1⟩, ⟨2, 1⟩] [] 1 0 ⟨4, by norm_num⟩
    { subject := ⟨1, 1⟩, hours := 1 / 2, examPrep := false }
    (by rw [allocate_two_equal_split]; exact List.mem_cons_self _ _)

/-! Urgency-classifier fold lemmas -/

theorem closest_foldl_le (ref : Int) (l : List Exam) :
    ∀ c : Int,
      l.foldl (fun closest e => if daysDiff ref e < closest then daysDiff ref e else closest) c ≤ c := by
  induction l with
  | nil => intro c; simp
  | cons a tl ih =>
    intro c
    rw [List.foldl_cons]
    calc tl.foldl _ (if daysDiff ref a < c then daysDiff ref a else c) ≤
        (if daysDiff ref a < c then daysDiff ref a else c) := ih _
      _ ≤ c := by split <;> omega

theorem closest_foldl_le_mem (ref : Int) (l : List Exam) :
    ∀ (c : Int) (e : Exam), e ∈ l →
      l.foldl (fun closest e => if daysDiff ref e < closest then daysDiff ref e else closest) c ≤
        daysDiff ref e := by
  induction l with
  | nil => intro c e he; simp at he
  | cons a tl ih =>
    intro c e he
    rw [List.foldl_cons]
    rcases List.mem_cons.mp he with rfl | he
    · calc tl.foldl _ (if daysDiff ref e < c then daysDiff ref e else c) ≤
          (if daysDiff ref e < c then daysDiff ref e else c) := closest_foldl_le ref tl _
        _ ≤ daysDiff ref e := by split <;> omega
    · exact ih _ e he

theorem closest_foldl_eq_or (ref : Int) (l : List Exam) :
    ∀ c : Int,
      l.foldl (fun closest e => if daysDiff ref e < closest then daysDiff ref e else closest) c = c ∨
        ∃ e ∈ l,
          l.foldl (fun closest e => if daysDiff ref e < closest then daysDiff ref e else closest) c =
            daysDiff ref e := by
  induction l with
  | nil => intro c; left; rfl
  | cons a tl ih =>
    intro c
    rw [List.foldl_cons]
    rcases ih (if daysDiff ref a < c then daysDiff ref a else c) with h | ⟨e, he, h⟩
    · by_cases hd : daysDiff ref a < c
      · right
        exact ⟨a, List.mem_cons_self a tl, by rw [h, if_pos hd]⟩
      · left
        rw [h, if_neg hd]
    · right
      exact ⟨e, List.mem_cons_of_mem a he, h⟩

/-- Claim C4 counterexample: a subject with one exam 5 days in the past and
one 20 days ahead: the code's classifier keeps the negative day count and
returns weight 3, while selecting the smallest non-negative day count (the
spec's words) returns the 20-day exam and weight 1. -/
theorem classifier_picks_past_exam :
    classifySubject [⟨1, 1, 1, -5⟩, ⟨2, 1, 1, 20⟩] 0 ⟨1, 1⟩ = ⟨⟨1, 1⟩, 3, -5⟩ ∧
    classifySubjectSpec [⟨1, 1, 1, -5⟩, ⟨2, 1, 1, 20⟩] 0 ⟨1, 1⟩ = ⟨⟨1, 1⟩, 1, 20⟩ := by
  constructor <;> decide

/-- Claim C4 (amended): with no exams for the subject the classifier returns
weight 1 and the 999 sentinel; otherwise its day count is the smallest exam
day count, past (negative) exams included, capped at the 999 sentinel (first
encountered wins ties), with the day count being the exact calendar-day
difference, and the weight is daysUntil at most 7 giving 3, at most 14 giving
2, else 1 — so a subject whose nearest exam already passed gets weight 3. -/
theorem classifier_uses_smallest_day_count (exams : List Exam) (ref : Int) (s : Subject) :
    (classifySubject exams ref s).priority =
      weightOf (classifySubject exams ref s).daysUntilExam ∧
    (classifySubject exams ref s).daysUntilExam ≤ 999 ∧
    (∀ e ∈ exams, e.subject_id = s.id →
      (classifySubject exams ref s).daysUntilExam ≤ daysDiff ref e) ∧
    ((classifySubject exams ref s).daysUntilExam = 999 ∨
      ∃ e ∈ exams, e.subject_id = s.id ∧
        (classifySubject exams ref s).daysUntilExam = daysDiff ref e) := by
  simp only [classifySubject]
  by_cases he : (exams.filter (fun e => e.subject_id == s.id)).isEmpty
  · rw [if_pos he]
    refine ⟨rfl, le_refl _, fun e hmem hsid => ?_, Or.inl rfl⟩
    exfalso
    rw [List.isEmpty_iff] at he
    have : e ∈ exams.filter (fun e => e.subject_id == s.id) :=
      List.mem_filter.mpr ⟨hmem, by simp [hsid]⟩
    rw [he] at this
    simp at this
  · rw [if_neg he]
    refine ⟨rfl, closest_foldl_le ref _ 999, fun e hmem hsid => ?_, ?_⟩
    · exact closest_foldl_le_mem ref _ 999 e (List.mem_filter.mpr ⟨hmem, by simp [hsid]⟩)
    · rcases closest_foldl_eq_or ref (exams.filter (fun e => e.subject_id == s.id)) 999 with h | ⟨e, hef, h⟩
      · exact Or.inl h
      · refine Or.inr ⟨e, (List.mem_filter.mp hef).1, ?_, h⟩
        have := (List.mem_filter.mp hef).2
        simpa using this

theorem classifier_uses_smallest_day_count_witness :
    (classifySubject [⟨1, 1, 1, 20⟩] 0 ⟨1, 1⟩).daysUntilExam ≤ daysDiff 0 ⟨1, 1, 1, 20⟩ :=
  (classifier_uses_smallest_day_count [⟨1, 1, 1, 20⟩] 0 ⟨1, 1⟩).2.2.1
    ⟨1, 1, 1, 20⟩ (by decide) rfl

/-! Streak lemmas -/

theorem streakAux_succ (plans : List Session) (today : Int) (r i s : Nat) :
    streakAux plans today (r + 1) i s =
      if hasCompletedOn plans (today - i) then streakAux plans today r (i + 1) (s + 1)
      else if 0 < i then s else streakAux plans today r (i + 1) s := rfl

theorem runLength_succ (plans : List Session) (d : Int) (f : Nat) :
    runLength plans d (f + 1) =
      if hasCompletedOn plans d then runLength plans (d - 1) f + 1 else 0 := rfl

theorem streakAux_le (plans : List Session) (today : Int) :
    ∀ (r i s : Nat), streakAux plans today r i s ≤ s + r := by
  intro r
  induction r with
  | zero => intro i s; simp [streakAux]
  | succ r ih =>
    intro i s
    rw [streakAux]
    by_cases h : hasCompletedOn plans (today - i)
    · rw [if_pos h]
      calc streakAux plans today r (i + 1) (s + 1) ≤ (s + 1) + r := ih (i + 1) (s + 1)
        _ = s + (r + 1) := by omega
    · rw [if_neg h]
      by_cases hi : 0 < i
      · rw [if_pos hi]; omega
      · rw [if_neg hi]
        calc streakAux plans today r (i + 1) s ≤ s + r := ih (i + 1) s
          _ ≤ s + (r + 1) := by omega

theorem streakAux_eq_runLength (plans : List Session) (today : Int) :
    ∀ (r i s : Nat), 1 ≤ i →
      streakAux plans today r i s = s + runLength plans (today - i) r := by
  intro r
  induction r with
  | zero => intro i s _; simp [streakAux, runLength]
  | succ r ih =>
    intro i s hi
    rw [streakAux, runLength]
    by_cases h : hasCompletedOn plans (today - i)
    · rw [if_pos h, if_pos h, ih (i + 1) (s + 1) (by omega)]
      have harg : today - ((i + 1 : Nat) : Int) = today - (i : Int) - 1 := by push_cast; ring
      rw [harg]; omega
    · rw [if_neg h, if_pos (by omega : 0 < i), if_neg h]; omega

theorem streakAux_all_completed (plans : List Session) (today : Int) :
    ∀ (r i s : Nat), (∀ j : Nat, j < r → hasCompletedOn plans (today - ((i : Int) + j)) = true) →
      streakAux plans today r i s = s + r := by
  intro r
  induction r with
  | zero => intro i s _; simp [streakAux]
  | succ r ih =>
    intro i s hall
    rw [streakAux]
    have h0 : hasCompletedOn plans (today - i) = true := by
      have := hall 0 (by omega)
      simpa using this
    rw [if_pos h0, ih (i + 1) (s + 1) (fun j hj => by
      have := hall (j + 1) (by omega)
      have harg : today - ((i : Int) + (j + 1 : Nat)) = today - (((i + 1 : Nat) : Int) + j) := by
        push_cast; ring
      rw [harg] at this
      exact this)]
    omega

/-- Claim C9 counterexample: with one session completed yesterday and none
today, the code reports a streak of 1 (the walk skips a gap on today itself),
while a walk from today that stops at the first gap reports 0. -/
theorem streak_counts_despite_today_gap :
    currentStreak [⟨1, 1, 1, 9, 1, false, true, none⟩] 10 = 1 ∧
    streakByFirstGap [⟨1, 1, 1, 9, 1, false, true, none⟩] 10 = 0 := by
  constructor <;> decide

/-- Claim C9 (amended): the streak walks backward day-by-day from today and
stops at the first gap on a day strictly before today, but a gap on today
itself is skipped without ending the walk (and without counting); with
completed sessions today, yesterday and two days ago but none three days
ago, the computed streak equals 3. -/
theorem streak_skips_today_gap (plans : List Session) (u : Nat) (today : Int) :
    analyzeStreak plans u today =
      (if hasCompletedOn (userPlansOf plans u) today then 1 else 0) +
        runLength (userPlansOf plans u) (today - 1) 29 ∧
    (hasCompletedOn (userPlansOf plans u) today = true →
     hasCompletedOn (userPlansOf plans u) (today - 1) = true →
     hasCompletedOn (userPlansOf plans u) (today - 2) = true →
     hasCompletedOn (userPlansOf plans u) (today - 3) = false →
     analyzeStreak plans u today = 3) := by
  have key : analyzeStreak plans u today =
      (if hasCompletedOn (userPlansOf plans u) today then 1 else 0) +
        runLength (userPlansOf plans u) (today - 1) 29 := by
    unfold analyzeStreak currentStreak
    rw [show (30 : Nat) = 29 + 1 from rfl, streakAux_succ]
    simp only [Nat.zero_add, Nat.cast_zero, sub_zero]
    by_cases h : hasCompletedOn (userPlansOf plans u) today
    · rw [if_pos h, if_pos h, streakAux_eq_runLength _ _ 29 1 1 le_rfl]
      norm_num
    · rw [if_neg h, if_neg (by omega : ¬ (0 : Nat) < 0), if_neg h,
        streakAux_eq_runLength _ _ 29 1 0 le_rfl]
      norm_num
  refine ⟨key, fun h0 h1 h2 h3 => ?_⟩
  have e1 : today - 1 - 1 = today - 2 := by ring
  have e2 : today - 2 - 1 = today - 3 := by ring
  rw [key, if_pos h0]
  rw [show (29 : Nat) = 28 + 1 from rfl, runLength_succ, if_pos h1, e1]
  rw [show (28 : Nat) = 27 + 1 from rfl, runLength_succ, if_pos h2, e2]
  rw [show (27 : Nat) = 26 + 1 from rfl, runLength_succ, if_neg (by simp [h3])]

theorem streak_skips_today_gap_witness :
    analyzeStreak [⟨1, 1, 1, 10, 1, false, true, none⟩, ⟨2, 1, 1, 9, 1, false, true, none⟩,
      ⟨3, 1, 1, 8, 1, false, true, none⟩] 1 10 = 3 :=
  (streak_skips_today_gap [⟨1, 1, 1, 10, 1, false, true, none⟩,
      ⟨2, 1, 1, 9, 1, false, true, none⟩, ⟨3, 1, 1, 8, 1, false, true, none⟩] 1 10).2
    (by decide) (by decide) (by decide) (by decide)

/-- Claim C10: the streak loop examines at most the 30 most recent days, so
the reported streak never exceeds 30, and a run of 30 or more consecutive
completed days (today included) is reported as exactly 30. -/
theorem streak_never_exceeds_30 (plans : List Session) (u : Nat) (today : Int) :
    analyzeStreak plans u today ≤ 30 ∧
    ((∀ j : Nat, j < 30 → hasCompletedOn (userPlansOf plans u) (today - j) = true) →
      analyzeStreak plans u today = 30) := by
  constructor
  · have h := streakAux_le (userPlansOf plans u) today 30 0 0
    simpa [analyzeStreak, currentStreak] using h
  · intro hall
    have h := streakAux_all_completed (userPlansOf plans u) today 30 0 0 (fun j hj => by
      have hj2 := hall j hj
      simpa using hj2)
    simpa [analyzeStreak, currentStreak] using h

theorem streak_never_exceeds_30_witness :
    analyzeStreak ((List.range 31).map
      (fun j => ⟨j, 1, 1, -(j : Int), 1, false, true, none⟩)) 1 0 = 30 :=
  (streak_never_exceeds_30 ((List.range 31).map
      (fun j => ⟨j, 1, 1, -(j : Int), 1, false, true, none⟩)) 1 0).2 (by decide)


/-! Generation lemmas -/

theorem classifySubject_subject (exams : List Exam) (d : Int) (s : Subject) :
    (classifySubject exams d s).subject = s := by
  simp only [classifySubject]
  split <;> rfl

theorem rescaleGo_map_subject (t sc : ℚ) :
    ∀ (l : List RawAlloc) (acc : ℚ),
      (rescaleGo t sc l acc).map (fun a => a.subject) = l.map (fun a => a.subject) := by
  intro l
  induction l with
  | nil => intro acc; simp [rescaleGo]
  | cons x tl ih =>
    intro acc
    cases tl with
    | nil => simp [rescaleGo]
    | cons y rest =>
      simp only [rescaleGo, List.map_cons]
      rw [ih]
      rfl

theorem allocate_map_subject (ss : List Subject) (exams : List Exam) (t : ℚ) (d : Int) :
    (allocateStudyTime ss exams t d).map (fun a => a.subject) = ss := by
  rcases ss with _ | ⟨s, _ | ⟨y, rest⟩⟩
  · simp [allocateStudyTime, rescaleGo]
  · rfl
  · simp only [allocateStudyTime, List.map_map, Function.comp_def]
    split
    · rw [rescaleGo_map_subject]
      simp [List.map_map, Function.comp_def, classifySubject_subject]
    · simp [List.map_map, Function.comp_def, classifySubject_subject]

theorem allocate_length (ss : List Subject) (exams : List Exam) (t : ℚ) (d : Int) :
    (allocateStudyTime ss exams t d).length = ss.length := by
  have h := congrArg List.length (allocate_map_subject ss exams t d)
  simpa using h

theorem dayProtos_map_sid (subjects : List Subject) (exams : List Exam) (hrs : ℚ)
    (spd idx : Nat) (d : Int) :
    (dayProtos subjects exams hrs spd idx d).map (fun pr => pr.subject_id) =
      (List.range spd).map (fun i =>
        (subjects.getD ((idx + i) % subjects.length) ⟨0, 0⟩).id) := by
  unfold dayProtos
  rw [List.map_map]
  rw [show ((fun pr : Proto => pr.subject_id) ∘ fun a : Allocation =>
      ({ subject_id := a.subject.id, study_date := d, planned_hours := a.hours,
         examPrep := a.examPrep } : Proto)) =
    ((fun s : Subject => s.id) ∘ (fun a : Allocation => a.subject)) from rfl]
  rw [← List.map_map, allocate_map_subject, List.map_map]
  rfl

theorem dayProtos_date (subjects : List Subject) (exams : List Exam) (hrs : ℚ)
    (spd idx : Nat) (d : Int) :
    ∀ pr ∈ dayProtos subjects exams hrs spd idx d, pr.study_date = d := by
  intro pr hpr
  unfold dayProtos at hpr
  rcases List.mem_map.mp hpr with ⟨x, _, rfl⟩
  rfl

theorem genProtos_mem_date (subjects : List Subject) (exams : List Exam) (hrs : ℚ) (spd : Nat) :
    ∀ (n : Nat) (d : Int) (idx : Nat), ∀ pr ∈ genProtos subjects exams hrs spd n d idx,
      d ≤ pr.study_date ∧ pr.study_date < d + n := by
  intro n
  induction n with
  | zero => intro d idx pr hpr; simp [genProtos] at hpr
  | succ n ih =>
    intro d idx pr hpr
    simp only [genProtos, List.mem_append] at hpr
    rcases hpr with h | h
    · have hd := dayProtos_date subjects exams hrs spd idx d pr h
      omega
    · have hd := ih (d + 1) (idx + spd) pr h
      omega

theorem genProtos_filter_date (subjects : List Subject) (exams : List Exam) (hrs : ℚ) (spd : Nat) :
    ∀ (n : Nat) (d0 : Int) (idx : Nat) (d : Int),
      (genProtos subjects exams hrs spd n d0 idx).filter (fun pr => pr.study_date == d) =
        if d0 ≤ d ∧ d < d0 + n then
          dayProtos subjects exams hrs spd (idx + spd * (d - d0).toNat) d
        else [] := by
  intro n
  induction n with
  | zero =>
    intro d0 idx d
    rw [if_neg (by omega)]
    simp [genProtos]
  | succ n ih =>
    intro d0 idx d
    simp only [genProtos, List.filter_append]
    by_cases hd : d = d0
    · subst hd
      have h1 : (dayProtos subjects exams hrs spd idx d).filter (fun pr => pr.study_date == d) =
          dayProtos subjects exams hrs spd idx d :=
        List.filter_eq_self.mpr (fun pr hpr => by
          have hdd := dayProtos_date subjects exams hrs spd idx d pr hpr
          simp [hdd])
      rw [h1, ih (d + 1) (idx + spd) d, if_neg (by omega), if_pos (by omega)]
      rw [show (d - d).toNat = 0 from by omega]
      simp
    · have h1 : (dayProtos subjects exams hrs spd idx d0).filter (fun pr => pr.study_date == d) = [] :=
        List.filter_eq_nil_iff.mpr (fun pr hpr => by
          have hdd := dayProtos_date subjects exams hrs spd idx d0 pr hpr
          simp only [hdd, beq_iff_eq]
          omega)
      rw [h1, List.nil_append, ih (d0 + 1) (idx + spd) d]
      by_cases hc : d0 + 1 ≤ d ∧ d < d0 + 1 + n
      · rw [if_pos hc, if_pos (by omega)]
        rw [show (d - d0).toNat = (d - (d0 + 1)).toNat + 1 from by omega, Nat.mul_succ]
        rw [show idx + (spd * (d - (d0 + 1)).toNat + spd) = idx + spd + spd * (d - (d0 + 1)).toNat from by ring]
      · rw [if_neg hc, if_neg (by omega)]

theorem enumFrom_mkSession_key (p0 u : Nat) :
    ∀ (l : List Proto) (k : Nat),
      ((List.enumFrom k l).map (mkSession p0 u)).map sessionKey = l.map protoKey := by
  intro l
  induction l with
  | nil => intro k; rfl
  | cons pr tl ih =>
    intro k
    simp only [List.enumFrom, List.map_cons]
    rw [ih]
    rfl

theorem assignIds_map_key (p0 u : Nat) (l : List Proto) :
    (assignIds p0 u l).map sessionKey = l.map protoKey :=
  enumFrom_mkSession_key p0 u l 0

theorem mem_assignIds (p0 u : Nat) :
    ∀ (l : List Proto) (k : Nat) (s : Session),
      s ∈ (List.enumFrom k l).map (mkSession p0 u) →
      s.user_id = u ∧ s.is_completed = false ∧ ∃ pr ∈ l, s.study_date = pr.study_date := by
  intro l
  induction l with
  | nil => intro k s hs; simp at hs
  | cons pr tl ih =>
    intro k s hs
    simp only [List.enumFrom, List.map_cons, List.mem_cons] at hs
    rcases hs with rfl | hs
    · exact ⟨rfl, rfl, pr, List.mem_cons_self _ _, rfl⟩
    · obtain ⟨h1, h2, q, hq, h3⟩ := ih (k + 1) s hs
      exact ⟨h1, h2, q, List.mem_cons_of_mem _ hq, h3⟩

theorem assignIds_filter_date_sid (p0 u : Nat) (d : Int) :
    ∀ (l : List Proto) (k : Nat),
      (((List.enumFrom k l).map (mkSession p0 u)).filter (fun s => s.study_date == d)).map
          (fun s => s.subject_id) =
        (l.filter (fun pr => pr.study_date == d)).map (fun pr => pr.subject_id) := by
  intro l
  induction l with
  | nil => intro k; rfl
  | cons pr tl ih =>
    intro k
    simp only [List.enumFrom, List.map_cons]
    by_cases hd : pr.study_date = d
    · rw [List.filter_cons_of_pos (by simp [mkSession, hd]),
          List.filter_cons_of_pos (by simp [hd])]
      simp only [List.map_cons]
      rw [ih]
      rfl
    · rw [List.filter_cons_of_neg (by simp [mkSession, hd]),
          List.filter_cons_of_neg (by simp [hd])]
      exact ih (k + 1)

theorem keepPlan_eq_not_inRange (u : Nat) (a b : Int) (p : Session) :
    keepPlan u a b p = !(inRangeOwned u a b p) := by
  rw [Bool.eq_iff_iff]
  simp only [keepPlan, inRangeOwned, Bool.or_eq_true, Bool.not_eq_true', Bool.and_eq_true,
    Bool.and_eq_false_iff, beq_eq_false_iff_ne, beq_iff_eq, decide_eq_true_eq,
    decide_eq_false_iff_not, ne_eq]
  omega

theorem generate_ok_inv (store : List Session) (allSubjects : List Subject) (allExams : List Exam)
    (u : Nat) (a b : Int) (hrs : ℚ) (S R : List Session)
    (h : generateStudyPlan store allSubjects allExams u a b hrs = .ok (S, R)) :
    R = newSessionsFor store (userSubjects allSubjects u) (userExams allExams u) u a b hrs ∧
    S = store.filter (keepPlan u a b) ++ R := by
  unfold generateStudyPlan at h
  by_cases hc : (userSubjects allSubjects u).isEmpty
  · rw [if_pos hc] at h
    simp at h
  · rw [if_neg hc] at h
    simp only [Except.ok.injEq, Prod.mk.injEq] at h
    obtain ⟨h1, h2⟩ := h
    refine ⟨h2.symm, ?_⟩
    rw [← h1, h2]


theorem generate_ok_filters (store : List Session) (allSubjects : List Subject)
    (allExams : List Exam) (u : Nat) (a b : Int) (hrs : ℚ) (S R : List Session)
    (h : generateStudyPlan store allSubjects allExams u a b hrs = .ok (S, R)) :
    S.filter (inRangeOwned u a b) = R ∧
    S.filter (fun p => !(inRangeOwned u a b p)) = store.filter (fun p => !(inRangeOwned u a b p)) ∧
    R.map sessionKey = (genProtos (userSubjects allSubjects u) (userExams allExams u) hrs
      (subjectsPerDayOf (userSubjects allSubjects u) hrs) ((b - a + 1).toNat) a 0).map protoKey := by
  obtain ⟨hR, hS⟩ := generate_ok_inv store allSubjects allExams u a b hrs S R h
  have hRmem : ∀ s ∈ R, inRangeOwned u a b s = true := by
    intro s hs
    rw [hR] at hs
    unfold newSessionsFor at hs
    obtain ⟨hu, _, pr, hpr, hdate⟩ := mem_assignIds _ u _ 0 s hs
    have hbound := genProtos_mem_date _ _ _ _ ((b - a + 1).toNat) a 0 pr hpr
    have h1 : a ≤ s.study_date := by omega
    have h2 : s.study_date ≤ b := by omega
    simp [inRangeOwned, hu, h1, h2]
  refine ⟨?_, ?_, ?_⟩
  · rw [hS, List.filter_append]
    have hstore : (store.filter (keepPlan u a b)).filter (inRangeOwned u a b) = [] := by
      refine List.filter_eq_nil_iff.mpr (fun s hs => ?_)
      have hk := (List.mem_filter.mp hs).2
      rw [keepPlan_eq_not_inRange] at hk
      simp only [Bool.not_eq_true'] at hk
      simp [hk]
    rw [hstore, List.filter_eq_self.mpr hRmem, List.nil_append]
  · rw [hS, List.filter_append]
    have hRnil : R.filter (fun p => !(inRangeOwned u a b p)) = [] :=
      List.filter_eq_nil_iff.mpr (fun s hs => by simp [hRmem s hs])
    have hkcongr : store.filter (keepPlan u a b) =
        store.filter (fun p => !(inRangeOwned u a b p)) :=
      List.filter_congr (fun p _ => keepPlan_eq_not_inRange u a b p)
    have hkeep : (store.filter (keepPlan u a b)).filter (fun p => !(inRangeOwned u a b p)) =
        store.filter (fun p => !(inRangeOwned u a b p)) := by
      rw [hkcongr]
      exact List.filter_eq_self.mpr (fun p hp => (List.mem_filter.mp hp).2)
    rw [hkeep, hRnil, List.append_nil]
  · rw [hR]
    unfold newSessionsFor
    exact assignIds_map_key _ u _

/-- Claim C1: for every owner and date range, a generation run removes from
the store exactly the owner's sessions dated inside the range (the post-store
restricted to owner-and-range sessions is exactly the freshly returned batch,
with no old session surviving there), preserves every other session
unchanged, and a second run with identical arguments reproduces the same
subject/date/hours tuples, differing only in the freshly assigned ids. -/
theorem generate_range_replacement_idempotent
    (store : List Session) (allSubjects : List Subject) (allExams : List Exam)
    (u : Nat) (a b : Int) (hrs : ℚ) (S₁ R₁ S₂ R₂ : List Session)
    (h1 : generateStudyPlan store allSubjects allExams u a b hrs = .ok (S₁, R₁))
    (h2 : generateStudyPlan S₁ allSubjects allExams u a b hrs = .ok (S₂, R₂)) :
    S₁.filter (inRangeOwned u a b) = R₁ ∧
    S₁.filter (fun p => !(inRangeOwned u a b p)) = store.filter (fun p => !(inRangeOwned u a b p)) ∧
    S₂.filter (inRangeOwned u a b) = R₂ ∧
    S₂.filter (fun p => !(inRangeOwned u a b p)) = S₁.filter (fun p => !(inRangeOwned u a b p)) ∧
    R₂.map sessionKey = R₁.map sessionKey := by
  obtain ⟨a1, a2, a3⟩ := generate_ok_filters store allSubjects allExams u a b hrs S₁ R₁ h1
  obtain ⟨b1, b2, b3⟩ := generate_ok_filters S₁ allSubjects allExams u a b hrs S₂ R₂ h2
  exact ⟨a1, a2, b1, b2, by rw [a3, b3]⟩

/-- Claim C6 (amended): in a successful generation whose subjects all belong
to the owner, every day of the range receives exactly
`min(len(subjects), floor(dailyHours / 0.5))` sessions — a count that is 0
rather than "at least 1" when `dailyHours < 0.5` — and the subjects scheduled
on day `d` are the round-robin window of that width starting at an index that
has advanced by the window width for each previous day. -/
theorem generate_round_robin
    (store : List Session) (allSubjects : List Subject) (allExams : List Exam)
    (u : Nat) (a b : Int) (hrs : ℚ) (S R : List Session) (d : Int)
    (hall : ∀ s ∈ allSubjects, s.user_id = u)
    (h : generateStudyPlan store allSubjects allExams u a b hrs = .ok (S, R))
    (hd1 : a ≤ d) (hd2 : d ≤ b) :
    ((R.filter (fun p => p.study_date == d)).map (fun p => p.subject_id) =
      (List.range (subjectsPerDayOf allSubjects hrs)).map (fun i =>
        (allSubjects.getD ((subjectsPerDayOf allSubjects hrs * (d - a).toNat + i) %
          allSubjects.length) ⟨0, 0⟩).id)) ∧
    (R.filter (fun p => p.study_date == d)).length =
      (min (allSubjects.length : Int) ⌊hrs / minHours⌋).toNat := by
  have hsub : userSubjects allSubjects u = allSubjects :=
    List.filter_eq_self.mpr (fun s hs => by simp [hall s hs])
  obtain ⟨hR, _⟩ := generate_ok_inv store allSubjects allExams u a b hrs S R h
  rw [hsub] at hR
  unfold newSessionsFor at hR
  have hmap : (R.filter (fun p => p.study_date == d)).map (fun p => p.subject_id) =
      (List.range (subjectsPerDayOf allSubjects hrs)).map (fun i =>
        (allSubjects.getD ((subjectsPerDayOf allSubjects hrs * (d - a).toNat + i) %
          allSubjects.length) ⟨0, 0⟩).id) := by
    rw [hR]
    rw [show assignIds (generateIdOf (store.map (fun p => p.id))) u
        (genProtos allSubjects (userExams allExams u) hrs (subjectsPerDayOf allSubjects hrs)
          ((b - a + 1).toNat) a 0) =
      (List.enumFrom 0 (genProtos allSubjects (userExams allExams u) hrs
        (subjectsPerDayOf allSubjects hrs) ((b - a + 1).toNat) a 0)).map
        (mkSession (generateIdOf (store.map (fun p => p.id))) u) from rfl]
    rw [assignIds_filter_date_sid]
    rw [genProtos_filter_date, if_pos (by omega)]
    rw [dayProtos_map_sid]
    simp
  refine ⟨hmap, ?_⟩
  have hlen := congrArg List.length hmap
  simpa [subjectsPerDayOf] using hlen


theorem spd_one_subject_one_hour : subjectsPerDayOf [⟨1, 1⟩] 1 = 1 := by
  unfold subjectsPerDayOf minHours
  rw [show (1 : ℚ) / (1 / 2) = 2 by norm_num, Int.floor_ofNat]
  rfl

theorem spd_two_subjects_one_hour : subjectsPerDayOf [⟨1, 1⟩, ⟨2, 1⟩] 1 = 2 := by
  unfold subjectsPerDayOf minHours
  rw [show (1 : ℚ) / (1 / 2) = 2 by norm_num, Int.floor_ofNat]
  rfl

theorem spd_quarter_hour_zero : subjectsPerDayOf [⟨1, 1⟩] (1 / 4) = 0 := by
  unfold subjectsPerDayOf minHours
  rw [show (1 : ℚ) / 4 / (1 / 2) = 1 / 2 by norm_num]
  rw [show ⌊(1 : ℚ) / 2⌋ = 0 from by rw [Int.floor_eq_iff]; norm_num]
  rfl

theorem generate_demo_first :
    generateStudyPlan [] [⟨1, 1⟩] [] 1 0 0 1 =
      .ok ([⟨1, 1, 1, 0, 1, false, false, none⟩], [⟨1, 1, 1, 0, 1, false, false, none⟩]) := by
  unfold generateStudyPlan
  rw [if_neg (by decide)]
  have hn : newSessionsFor [] (userSubjects [⟨1, 1⟩] 1) (userExams [] 1) 1 0 0 1 =
      [⟨1, 1, 1, 0, 1, false, false, none⟩] := by
    unfold newSessionsFor
    rw [show userSubjects [⟨1, 1⟩] 1 = [⟨1, 1⟩] from rfl, show userExams [] 1 = [] from rfl,
        spd_one_subject_one_hour]
    rfl
  rw [hn]
  rfl

theorem generate_demo_second :
    generateStudyPlan [⟨1, 1, 1, 0, 1, false, false, none⟩] [⟨1, 1⟩] [] 1 0 0 1 =
      .ok ([⟨2, 1, 1, 0, 1, false, false, none⟩], [⟨2, 1, 1, 0, 1, false, false, none⟩]) := by
  unfold generateStudyPlan
  rw [if_neg (by decide)]
  have hn : newSessionsFor [⟨1, 1, 1, 0, 1, false, false, none⟩] (userSubjects [⟨1, 1⟩] 1)
      (userExams [] 1) 1 0 0 1 = [⟨2, 1, 1, 0, 1, false, false, none⟩] := by
    unfold newSessionsFor
    rw [show userSubjects [⟨1, 1⟩] 1 = [⟨1, 1⟩] from rfl, show userExams [] 1 = [] from rfl,
        spd_one_subject_one_hour]
    rfl
  rw [hn]
  rfl

theorem generate_range_replacement_idempotent_witness :
    ([⟨2, 1, 1, 0, 1, false, false, none⟩] : List Session).map sessionKey =
      ([⟨1, 1, 1, 0, 1, false, false, none⟩] : List Session).map sessionKey :=
  (generate_range_replacement_idempotent [] [⟨1, 1⟩] [] 1 0 0 1
    [⟨1, 1, 1, 0, 1, false, false, none⟩] [⟨1, 1, 1, 0, 1, false, false, none⟩]
    [⟨2, 1, 1, 0, 1, false, false, none⟩] [⟨2, 1, 1, 0, 1, false, false, none⟩]
    generate_demo_first generate_demo_second).2.2.2.2

theorem dayProtos_demo : dayProtos [⟨1, 1⟩, ⟨2, 1⟩] [] 1 2 0 0 =
    [⟨1, 0, 1 / 2, false⟩, ⟨2, 0, 1 / 2, false⟩] := by
  show (allocateStudyTime [⟨1, 1⟩, ⟨2, 1⟩] [] 1 0).map _ = _
  rw [allocate_two_equal_split]
  rfl

theorem generate_demo_two_subjects :
    generateStudyPlan [] [⟨1, 1⟩, ⟨2, 1⟩] [] 1 0 0 1 =
      .ok ([⟨1, 1, 1, 0, 1 / 2, false, false, none⟩, ⟨2, 1, 2, 0, 1 / 2, false, false, none⟩],
           [⟨1, 1, 1, 0, 1 / 2, false, false, none⟩, ⟨2, 1, 2, 0, 1 / 2, false, false, none⟩]) := by
  unfold generateStudyPlan
  rw [if_neg (by decide)]
  have hn : newSessionsFor [] (userSubjects [⟨1, 1⟩, ⟨2, 1⟩] 1) (userExams [] 1) 1 0 0 1 =
      [⟨1, 1, 1, 0, 1 / 2, false, false, none⟩, ⟨2, 1, 2, 0, 1 / 2, false, false, none⟩] := by
    unfold newSessionsFor
    rw [show userSubjects [⟨1, 1⟩, ⟨2, 1⟩] 1 = [⟨1, 1⟩, ⟨2, 1⟩] from rfl,
        show userExams [] 1 = [] from rfl, spd_two_subjects_one_hour]
    rw [show ((0 : Int) - 0 + 1).toNat = 1 from rfl]
    rw [show genProtos [⟨1, 1⟩, ⟨2, 1⟩] [] 1 2 1 0 0 =
        dayProtos [⟨1, 1⟩, ⟨2, 1⟩] [] 1 2 0 0 ++ [] from rfl]
    rw [dayProtos_demo]
    rfl
  rw [hn]
  rfl


/-- Claim C6 counterexample: with one subject, a one-day range and a
quarter-hour daily budget, `subjectsPerDay = min(1, floor(0.25 / 0.5)) = 0` —
not at least 1 — and the generation succeeds while scheduling no subject on
the in-range day. -/
theorem generate_zero_subjects_per_day :
    subjectsPerDayOf [⟨1, 1⟩] (1 / 4) = 0 ∧
    generateStudyPlan [] [⟨1, 1⟩] [] 1 0 0 (1 / 4) = .ok ([], []) := by
  refine ⟨spd_quarter_hour_zero, ?_⟩
  unfold generateStudyPlan
  rw [if_neg (by decide)]
  have hallo : allocateStudyTime [] [] (1 / 4) 0 = [] := by
    simp [allocateStudyTime, rescaleGo]
  have hn : newSessionsFor [] (userSubjects [⟨1, 1⟩] 1) (userExams [] 1) 1 0 0 (1 / 4) = [] := by
    unfold newSessionsFor
    rw [show userSubjects [⟨1, 1⟩] 1 = [⟨1, 1⟩] from rfl, show userExams [] 1 = [] from rfl,
        spd_quarter_hour_zero]
    rw [show ((0 : Int) - 0 + 1).toNat = 1 from rfl]
    rw [show genProtos [⟨1, 1⟩] [] (1 / 4) 0 1 0 0 =
        dayProtos [⟨1, 1⟩] [] (1 / 4) 0 0 0 ++ [] from rfl]
    unfold dayProtos
    show assignIds _ _ ((allocateStudyTime [] [] (1 / 4) 0).map _ ++ []) = []
    rw [hallo]
    rfl
  rw [hn]
  rfl

theorem generate_round_robin_witness :
    (([⟨1, 1, 1, 0, 1 / 2, false, false, none⟩, ⟨2, 1, 2, 0, 1 / 2, false, false, none⟩] :
        List Session).filter (fun p => p.study_date == 0)).length =
      (min (([⟨1, 1⟩, ⟨2, 1⟩] : List Subject).length : Int) ⌊(1 : ℚ) / minHours⌋).toNat :=
  (generate_round_robin [] [⟨1, 1⟩, ⟨2, 1⟩] [] 1 0 0 1
    [⟨1, 1, 1, 0, 1 / 2, false, false, none⟩, ⟨2, 1, 2, 0, 1 / 2, false, false, none⟩]
    [⟨1, 1, 1, 0, 1 / 2, false, false, none⟩, ⟨2, 1, 2, 0, 1 / 2, false, false, none⟩] 0
    (by decide) generate_demo_two_subjects (by decide) (by decide)).2

end StudyPlanner
